import Mathlib

/-!
Verification development for a supply-chain record chaincode.

The program keeps `Product` records in an external key-value world state,
keyed by the record id, serialized as JSON objects.  The world state is
modelled here as an association list kept sorted by key (the external
store enumerates keys in ascending lexicographic order on range scans);
`putState` is an ordered insert-or-replace and `getState` a lookup.
JSON is modelled as a small AST: the only shapes the program produces or
consumes are objects whose fields are strings.  The transaction context
is modelled by the RFC3339 timestamp string it can derive, `none` when
the context cannot supply one.  Fallible operations return `Except Err`;
an operation that returns an error performs no write (in the source every
error path returns before `PutState`), which the model reflects by
returning no successor world on the error path.
-/

/-- A JSON value: only strings and objects occur in this program. -/
inductive Json where
  | str (s : String)
  | obj (fields : List (String × Json))

/-- Lookup of a field in a JSON object; on duplicate keys the last
binding wins, as in Go's `encoding/json`. -/
def lookupField : List (String × Json) → String → Option Json
  | [], _ => none
  | (k, v) :: rest, key =>
      match lookupField rest key with
      | some r => some r
      | none => if k = key then some v else none

/-- Read a string-valued field: a missing field decodes to the zero value
`""` (Go `encoding/json` leaves absent fields at their zero value); a
field present with a non-string value is a decode error. -/
def getStringField (fields : List (String × Json)) (key : String) : Option String :=
  match lookupField fields key with
  | none => some ""
  | some (.str s) => some s
  | some (.obj _) => none

/-- The product entity: the eight fields of the Go `Product` struct. -/
structure Product where
  ID : String
  Name : String
  Status : String
  Owner : String
  CreatedAt : String
  UpdatedAt : String
  Description : String
  Category : String

/-- `json.Marshal` of a `Product`: an object with the struct's tag keys,
in struct field order. -/
def marshalProduct (p : Product) : Json :=
  .obj [("id", .str p.ID), ("name", .str p.Name), ("status", .str p.Status),
        ("owner", .str p.Owner), ("created_at", .str p.CreatedAt),
        ("updated_at", .str p.UpdatedAt), ("description", .str p.Description),
        ("category", .str p.Category)]

/-- `json.Unmarshal` of bytes into a `Product`: the value must be an
object; each tagged field is read as a string, absent fields default to
`""`, a non-object value or a non-string field is a decode failure. -/
def unmarshalProduct (j : Json) : Option Product :=
  match j with
  | .str _ => none
  | .obj fields => do
      let id ← getStringField fields "id"
      let name ← getStringField fields "name"
      let status ← getStringField fields "status"
      let owner ← getStringField fields "owner"
      let createdAt ← getStringField fields "created_at"
      let updatedAt ← getStringField fields "updated_at"
      let description ← getStringField fields "description"
      let category ← getStringField fields "category"
      some ⟨id, name, status, owner, createdAt, updatedAt, description, category⟩

/-- The error outcomes the contract surfaces. -/
inductive Err where
  | clockError
  | alreadyExists (id : String)
  | notFound (id : String)
  | decodeError

/-- Lexicographic order on character lists by code point, the order in
which the store enumerates keys (for valid strings it coincides with
byte-lexicographic order on their UTF-8 encodings). -/
def charListLt : List Char → List Char → Bool
  | _, [] => false
  | [], _ :: _ => true
  | a :: as, b :: bs =>
      if a = b then charListLt as bs else decide (a.toNat < b.toNat)

/-- The store's key order on strings. -/
def keyLt (a b : String) : Bool := charListLt a.data b.data

/-- The world state: an association list sorted by key in ascending
string order, mirroring the store's lexicographic key enumeration. -/
abbrev World := List (String × Json)

/-- `GetState`: point read; `none` models the store's nil result for an
absent (or empty) key. -/
def getState : World → String → Option Json
  | [], _ => none
  | (k, v) :: rest, key => if key = k then some v else getState rest key

/-- `PutState`: ordered insert-or-replace, keeping keys sorted. -/
def putState : World → String → Json → World
  | [], key, v => [(key, v)]
  | (k, w) :: rest, key, v =>
      if keyLt key k then (key, v) :: (k, w) :: rest
      else if key = k then (key, v) :: rest
      else (k, w) :: putState rest key v

/-- The transaction context: the RFC3339 timestamp string the current
transaction can derive, or `none` when `GetTxTimestamp` fails. -/
structure TxContext where
  txTimestamp : Option String

/-- `getTimestamp`: converts the transaction's declared time to an
RFC3339 string, failing when the context cannot supply one. -/
def getTimestamp (ctx : TxContext) : Except Err String :=
  match ctx.txTimestamp with
  | some t => .ok t
  | none => .error .clockError

/-- `ProductExists`: true iff the point read returns a value. -/
def ProductExists (w : World) (id : String) : Bool :=
  (getState w id).isSome

/-- `QueryProduct`: point read then unmarshal; absent key is a
not-found error, undecodable bytes a decode error.  Pure read. -/
def QueryProduct (w : World) (id : String) : Except Err Product :=
  match getState w id with
  | none => .error (.notFound id)
  | some j =>
      match unmarshalProduct j with
      | none => .error .decodeError
      | some p => .ok p

/-- `CreateProduct`: derive the timestamp, refuse an existing id, then
write a fresh record with status `"Manufactured"` and both timestamps
equal to the derived one. -/
def CreateProduct (ctx : TxContext) (w : World)
    (id name owner description category : String) : Except Err World :=
  match getTimestamp ctx with
  | .error e => .error e
  | .ok curTime =>
      if ProductExists w id then .error (.alreadyExists id)
      else .ok (putState w id (marshalProduct
        ⟨id, name, "Manufactured", owner, curTime, curTime, description, category⟩))

/-- The field edits `UpdateProduct` applies to the retrieved record: each
of the four mutable fields is overwritten only when the argument is
non-empty, and `UpdatedAt` is always rewritten. -/
def applyUpdate (p : Product)
    (newStatus newOwner newDescription newCategory curTime : String) : Product :=
  { p with
    Status := if newStatus ≠ "" then newStatus else p.Status,
    Owner := if newOwner ≠ "" then newOwner else p.Owner,
    Description := if newDescription ≠ "" then newDescription else p.Description,
    Category := if newCategory ≠ "" then newCategory else p.Category,
    UpdatedAt := curTime }

/-- `UpdateProduct`: derive the timestamp, read the existing record via
`QueryProduct`, apply the selective edits, write the result back. -/
def UpdateProduct (ctx : TxContext) (w : World)
    (id newStatus newOwner newDescription newCategory : String) : Except Err World :=
  match getTimestamp ctx with
  | .error e => .error e
  | .ok curTime =>
      match QueryProduct w id with
      | .error e => .error e
      | .ok asset =>
          .ok (putState w id (marshalProduct
            (applyUpdate asset newStatus newOwner newDescription newCategory curTime)))

/-- `TransferOwnership`: derive the timestamp, read the existing record,
overwrite `Owner` unconditionally and `UpdatedAt`, write back. -/
def TransferOwnership (ctx : TxContext) (w : World)
    (id newOwner : String) : Except Err World :=
  match getTimestamp ctx with
  | .error e => .error e
  | .ok curTime =>
      match QueryProduct w id with
      | .error e => .error e
      | .ok asset =>
          .ok (putState w id (marshalProduct
            { asset with Owner := newOwner, UpdatedAt := curTime }))

/-- First hard-coded seed asset of `InitLedger`. -/
def seed1 (curTime : String) : Product :=
  ⟨"p1", "Laptop", "Manufactured", "CompanyA", curTime, curTime,
   "High-end gaming laptop", "Electronics"⟩

/-- Second hard-coded seed asset of `InitLedger`. -/
def seed2 (curTime : String) : Product :=
  ⟨"p2", "Smartphone", "Manufactured", "CompanyB", curTime, curTime,
   "Latest model smartphone", "Electronics"⟩

/-- The hard-coded asset list of `InitLedger`. -/
def initAssets (curTime : String) : List Product :=
  [seed1 curTime, seed2 curTime]

/-- `InitLedger`: derive the timestamp, then marshal and put each seed
asset under its id, in list order. -/
def InitLedger (ctx : TxContext) (w : World) : Except Err World :=
  match getTimestamp ctx with
  | .error e => .error e
  | .ok curTime =>
      .ok ((initAssets curTime).foldl
        (fun acc asset => putState acc asset.ID (marshalProduct asset)) w)

/-- `putProduct` helper: marshal and put a record under its own id. -/
def putProduct (w : World) (product : Product) : World :=
  putState w product.ID (marshalProduct product)

/-- The iteration body of `GetAllProducts`: unmarshal each value in scan
order, aborting with a decode error on the first failure. -/
def getAllFrom : List (String × Json) → Except Err (List Product)
  | [] => .ok []
  | (_, j) :: rest =>
      match unmarshalProduct j with
      | none => .error .decodeError
      | some p =>
          match getAllFrom rest with
          | .error e => .error e
          | .ok ps => .ok (p :: ps)

/-- `GetAllProducts`: full range scan (`GetStateByRange("", "")`) over
the whole keyspace in ascending key order, decoding every value. -/
def GetAllProducts (w : World) : Except Err (List Product) :=
  getAllFrom w

/-- The worlds reachable from the empty store by successful contract
invocations (failed invocations leave the store as it was). -/
inductive Reachable : World → Prop where
  | empty : Reachable []
  | initLedger (ctx : TxContext) (w w' : World) :
      Reachable w → InitLedger ctx w = .ok w' → Reachable w'
  | create (ctx : TxContext) (w : World) (id name owner description category : String)
      (w' : World) :
      Reachable w → CreateProduct ctx w id name owner description category = .ok w' →
      Reachable w'
  | update (ctx : TxContext) (w : World)
      (id newStatus newOwner newDescription newCategory : String) (w' : World) :
      Reachable w →
      UpdateProduct ctx w id newStatus newOwner newDescription newCategory = .ok w' →
      Reachable w'
  | transfer (ctx : TxContext) (w : World) (id newOwner : String) (w' : World) :
      Reachable w → TransferOwnership ctx w id newOwner = .ok w' → Reachable w'

/-- Decode is a left inverse of encode, field for field. -/
theorem unmarshal_marshal (p : Product) : unmarshalProduct (marshalProduct p) = some p := rfl

theorem char_eq_of_toNat_eq {a b : Char} (h : a.toNat = b.toNat) : a = b :=
  Char.ext (UInt32.ext h)

theorem charListLt_trans (l1 l2 l3 : List Char) (h1 : charListLt l1 l2 = true)
    (h2 : charListLt l2 l3 = true) : charListLt l1 l3 = true := by
  induction l1 generalizing l2 l3 with
  | nil =>
      cases l2 with
      | nil => simp [charListLt] at h1
      | cons b bs =>
          cases l3 with
          | nil => simp [charListLt] at h2
          | cons c cs => simp [charListLt]
  | cons a as ih =>
      cases l2 with
      | nil => simp [charListLt] at h1
      | cons b bs =>
          cases l3 with
          | nil => simp [charListLt] at h2
          | cons c cs =>
              simp only [charListLt] at h1 h2 ⊢
              by_cases hab : a = b
              · subst hab
                simp at h1
                by_cases hac : a = c
                · subst hac
                  simp at h2 ⊢
                  exact ih bs cs h1 h2
                · simp [hac] at h2 ⊢
                  exact h2
              · by_cases hbc : b = c
                · subst hbc
                  simp [hab] at h1 ⊢
                  exact h1
                · simp [hab] at h1
                  simp [hbc] at h2
                  by_cases hac : a = c
                  · subst hac
                    exfalso
                    omega
                  · simp [hac]
                    omega

theorem charListLt_of_not_of_ne (l1 l2 : List Char) (h : charListLt l1 l2 = false)
    (hne : l1 ≠ l2) : charListLt l2 l1 = true := by
  induction l1 generalizing l2 with
  | nil =>
      cases l2 with
      | nil => exact absurd rfl hne
      | cons b bs => simp [charListLt] at h
  | cons a as ih =>
      cases l2 with
      | nil => simp [charListLt]
      | cons b bs =>
          simp only [charListLt] at h ⊢
          by_cases hab : a = b
          · subst hab
            simp at h ⊢
            have hne' : as ≠ bs := fun he => hne (by rw [he])
            exact ih bs h hne'
          · have hba : ¬ b = a := fun he => hab he.symm
            simp [hab, hba] at h ⊢
            have : a.toNat ≠ b.toNat := fun he => hab (char_eq_of_toNat_eq he)
            omega

theorem keyLt_trans {a b c : String} (h1 : keyLt a b = true) (h2 : keyLt b c = true) :
    keyLt a c = true :=
  charListLt_trans a.data b.data c.data h1 h2

theorem keyLt_of_not_of_ne {a b : String} (h : keyLt a b = false) (hne : a ≠ b) :
    keyLt b a = true :=
  charListLt_of_not_of_ne a.data b.data h
    (fun hd => hne (by cases a; cases b; exact congrArg String.mk hd))

/-- The world's entries are strictly ascending in the store's key order. -/
abbrev keyOrdered (w : World) : Prop :=
  List.Pairwise (fun a b => keyLt a.1 b.1 = true) w

theorem getState_putState (w : World) (k k' : String) (v : Json) :
    getState (putState w k v) k' = if k' = k then some v else getState w k' := by
  induction w with
  | nil => simp [putState, getState]
  | cons hd tl ih =>
      obtain ⟨k0, v0⟩ := hd
      by_cases h1 : keyLt k k0
      · simp only [putState, h1, if_pos, ite_true, getState]
      · by_cases h2 : k = k0
        · subst h2
          simp only [putState, h1, if_neg, ite_false, ite_true, if_pos, getState]
          split_ifs <;> rfl
        · simp only [putState, h1, h2, if_neg, ite_false, getState, ih]
          by_cases h3 : k' = k0
          · subst h3
            have : ¬ k' = k := fun he => h2 he.symm
            simp [this]
          · simp [h3]

theorem mem_putState {w : World} {k : String} {v : Json} {x : String × Json}
    (hx : x ∈ putState w k v) : x = (k, v) ∨ x ∈ w := by
  induction w with
  | nil => simpa [putState] using hx
  | cons hd tl ih =>
      obtain ⟨k0, v0⟩ := hd
      by_cases h1 : keyLt k k0
      · simp [putState, h1, List.mem_cons] at hx
        rcases hx with hx | hx | hx
        · exact Or.inl (by simp [hx])
        · exact Or.inr (by simp [hx])
        · exact Or.inr (by simp [hx])
      · by_cases h2 : k = k0
        · subst h2
          simp [putState, h1, List.mem_cons] at hx
          rcases hx with hx | hx
          · exact Or.inl (by simp [hx])
          · exact Or.inr (by simp [hx])
        · simp [putState, h1, h2, List.mem_cons] at hx
          rcases hx with hx | hx
          · exact Or.inr (by simp [hx])
          · rcases ih hx with hx | hx
            · exact Or.inl hx
            · exact Or.inr (by simp [hx])

theorem putState_keyOrdered {w : World} (k : String) (v : Json) (hw : keyOrdered w) :
    keyOrdered (putState w k v) := by
  induction w with
  | nil => simp [putState]
  | cons hd tl ih =>
      obtain ⟨k0, v0⟩ := hd
      obtain ⟨hw1, hw2⟩ := List.pairwise_cons.mp hw
      by_cases h1 : keyLt k k0
      · have heq : putState ((k0, v0) :: tl) k v = (k, v) :: (k0, v0) :: tl := by
          simp [putState, h1]
        rw [heq]
        refine List.pairwise_cons.mpr ⟨?_, ?_⟩
        · intro x hx
          rcases List.mem_cons.mp hx with hx | hx
          · simpa [hx] using h1
          · exact keyLt_trans h1 (hw1 x hx)
        · exact List.pairwise_cons.mpr ⟨hw1, hw2⟩
      · by_cases h2 : k = k0
        · subst h2
          have heq : putState ((k, v0) :: tl) k v = (k, v) :: tl := by
            simp [putState, h1]
          rw [heq]
          exact List.pairwise_cons.mpr ⟨fun x hx => hw1 x hx, hw2⟩
        · have heq : putState ((k0, v0) :: tl) k v = (k0, v0) :: putState tl k v := by
            simp [putState, h1, h2]
          rw [heq]
          refine List.pairwise_cons.mpr ⟨?_, ?_⟩
          · intro x hx
            rcases mem_putState hx with hx | hx
            · rw [hx]
              exact keyLt_of_not_of_ne (Bool.not_eq_true _ ▸ h1) (fun he => h2 he)
            · exact hw1 x hx
          · exact ih hw2

theorem QueryProduct_putState_self (w : World) (id : String) (p : Product) :
    QueryProduct (putState w id (marshalProduct p)) id = .ok p := by
  simp [QueryProduct, getState_putState, unmarshal_marshal]

theorem QueryProduct_ok_inv {w : World} {id : String} {p : Product}
    (h : QueryProduct w id = .ok p) :
    ∃ j, getState w id = some j ∧ unmarshalProduct j = some p := by
  cases hg : getState w id with
  | none => simp [QueryProduct, hg] at h
  | some j =>
      cases hj : unmarshalProduct j with
      | none => simp [QueryProduct, hg, hj] at h
      | some q =>
          simp [QueryProduct, hg, hj] at h
          exact ⟨j, rfl, by rw [hj, h]⟩

theorem CreateProduct_ok {ctx : TxContext} {w : World}
    {id name owner description category : String} {w' : World}
    (h : CreateProduct ctx w id name owner description category = .ok w') :
    ∃ t, ctx.txTimestamp = some t ∧ ProductExists w id = false ∧
      w' = putState w id (marshalProduct
        ⟨id, name, "Manufactured", owner, t, t, description, category⟩) := by
  cases hts : ctx.txTimestamp with
  | none => simp [CreateProduct, getTimestamp, hts] at h
  | some t =>
      simp only [CreateProduct, getTimestamp, hts] at h
      by_cases he : ProductExists w id
      · simp [he] at h
      · simp [he] at h
        exact ⟨t, rfl, by simp [he], h.symm⟩

theorem UpdateProduct_ok {ctx : TxContext} {w : World}
    {id newStatus newOwner newDescription newCategory : String} {w' : World}
    (h : UpdateProduct ctx w id newStatus newOwner newDescription newCategory = .ok w') :
    ∃ t p, ctx.txTimestamp = some t ∧ QueryProduct w id = .ok p ∧
      w' = putState w id (marshalProduct
        (applyUpdate p newStatus newOwner newDescription newCategory t)) := by
  cases hts : ctx.txTimestamp with
  | none => simp [UpdateProduct, getTimestamp, hts] at h
  | some t =>
      simp only [UpdateProduct, getTimestamp, hts] at h
      cases hq : QueryProduct w id with
      | error e => simp [hq] at h
      | ok p =>
          simp [hq] at h
          exact ⟨t, p, rfl, rfl, h.symm⟩

theorem TransferOwnership_ok {ctx : TxContext} {w : World}
    {id newOwner : String} {w' : World}
    (h : TransferOwnership ctx w id newOwner = .ok w') :
    ∃ t p, ctx.txTimestamp = some t ∧ QueryProduct w id = .ok p ∧
      w' = putState w id (marshalProduct { p with Owner := newOwner, UpdatedAt := t }) := by
  cases hts : ctx.txTimestamp with
  | none => simp [TransferOwnership, getTimestamp, hts] at h
  | some t =>
      simp only [TransferOwnership, getTimestamp, hts] at h
      cases hq : QueryProduct w id with
      | error e => simp [hq] at h
      | ok p =>
          simp [hq] at h
          exact ⟨t, p, rfl, rfl, h.symm⟩

theorem seed1_ID (t : String) : (seed1 t).ID = "p1" := rfl

theorem seed2_ID (t : String) : (seed2 t).ID = "p2" := rfl

theorem InitLedger_eq (ctx : TxContext) (w : World) {t : String}
    (hts : ctx.txTimestamp = some t) :
    InitLedger ctx w = .ok (putState (putState w "p1" (marshalProduct (seed1 t)))
      "p2" (marshalProduct (seed2 t))) := by
  simp only [InitLedger, getTimestamp, hts, initAssets, List.foldl_cons, List.foldl_nil,
    seed1_ID, seed2_ID]

theorem InitLedger_ok {ctx : TxContext} {w w' : World} (h : InitLedger ctx w = .ok w') :
    ∃ t, ctx.txTimestamp = some t ∧
      w' = putState (putState w "p1" (marshalProduct (seed1 t)))
        "p2" (marshalProduct (seed2 t)) := by
  cases hts : ctx.txTimestamp with
  | none => simp [InitLedger, getTimestamp, hts] at h
  | some t =>
      rw [InitLedger_eq ctx w hts] at h
      exact ⟨t, rfl, (Except.ok.inj h).symm⟩

theorem getState_isSome_putState {w : World} {k' : String} (k : String) (v : Json)
    (h : (getState w k').isSome = true) : (getState (putState w k v) k').isSome = true := by
  rw [getState_putState]
  by_cases hk : k' = k
  · simp [hk]
  · simpa [hk] using h

theorem getAllFrom_eq_mapM (l : List (String × Json)) :
    getAllFrom l = match l.mapM (fun kv => unmarshalProduct kv.2) with
      | some ps => .ok ps
      | none => .error .decodeError := by
  rw [← List.mapM'_eq_mapM]
  induction l with
  | nil => simp [getAllFrom, List.mapM']
  | cons hd tl ih =>
      obtain ⟨k, j⟩ := hd
      cases hj : unmarshalProduct j with
      | none => simp [getAllFrom, List.mapM', hj]
      | some p =>
          cases htl : List.mapM' (fun kv => unmarshalProduct kv.2) tl with
          | none => simp [getAllFrom, List.mapM', hj, htl, ih]
          | some ps => simp [getAllFrom, List.mapM', hj, htl, ih]

theorem reachable_keyOrdered {w : World} (h : Reachable w) : keyOrdered w := by
  induction h with
  | empty => simp
  | initLedger ctx w w' hre heq ih =>
      obtain ⟨t, hts, hw'⟩ := InitLedger_ok heq
      rw [hw']
      exact putState_keyOrdered _ _ (putState_keyOrdered _ _ ih)
  | create ctx w id name owner description category w' hre heq ih =>
      obtain ⟨t, hts, hex, hw'⟩ := CreateProduct_ok heq
      rw [hw']
      exact putState_keyOrdered _ _ ih
  | update ctx w id newStatus newOwner newDescription newCategory w' hre heq ih =>
      obtain ⟨t, p, hts, hq, hw'⟩ := UpdateProduct_ok heq
      rw [hw']
      exact putState_keyOrdered _ _ ih
  | transfer ctx w id newOwner w' hre heq ih =>
      obtain ⟨t, p, hts, hq, hw'⟩ := TransferOwnership_ok heq
      rw [hw']
      exact putState_keyOrdered _ _ ih

/-- Every record stored in a reachable world decodes, and its status is
non-empty. -/
def recordsStatusNonempty (w : World) : Prop :=
  ∀ k j, getState w k = some j → ∃ p, unmarshalProduct j = some p ∧ p.Status ≠ ""

theorem recordsStatusNonempty_putState {w : World} (hw : recordsStatusNonempty w)
    {id : String} {p : Product} (hp : p.Status ≠ "") :
    recordsStatusNonempty (putState w id (marshalProduct p)) := by
  intro k j hk
  rw [getState_putState] at hk
  by_cases hkk : k = id
  · simp [hkk] at hk
    exact ⟨p, by rw [← hk]; exact unmarshal_marshal p, hp⟩
  · simp [hkk] at hk
    exact hw k j hk

theorem reachable_statusNonempty {w : World} (h : Reachable w) : recordsStatusNonempty w := by
  induction h with
  | empty => intro k j hk; simp [getState] at hk
  | initLedger ctx w w' hre heq ih =>
      obtain ⟨t, hts, hw'⟩ := InitLedger_ok heq
      rw [hw']
      exact recordsStatusNonempty_putState
        (recordsStatusNonempty_putState ih (by simp [seed1]))
        (by simp [seed2])
  | create ctx w id name owner description category w' hre heq ih =>
      obtain ⟨t, hts, hex, hw'⟩ := CreateProduct_ok heq
      rw [hw']
      exact recordsStatusNonempty_putState ih (by simp)
  | update ctx w id newStatus newOwner newDescription newCategory w' hre heq ih =>
      obtain ⟨t, p, hts, hq, hw'⟩ := UpdateProduct_ok heq
      obtain ⟨j, hg, hj⟩ := QueryProduct_ok_inv hq
      obtain ⟨q, hq', hqs⟩ := ih id j hg
      have hpq : p = q := by rw [hj] at hq'; exact Option.some.inj hq'
      rw [hw']
      apply recordsStatusNonempty_putState ih
      by_cases hns : newStatus = ""
      · simpa [applyUpdate, hns, hpq] using hqs
      · simp [applyUpdate, hns]
  | transfer ctx w id newOwner w' hre heq ih =>
      obtain ⟨t, p, hts, hq, hw'⟩ := TransferOwnership_ok heq
      obtain ⟨j, hg, hj⟩ := QueryProduct_ok_inv hq
      obtain ⟨q, hq', hqs⟩ := ih id j hg
      have hpq : p = q := by rw [hj] at hq'; exact Option.some.inj hq'
      rw [hw']
      apply recordsStatusNonempty_putState ih
      simpa [hpq] using hqs

/-- A transaction context whose timestamp is available, for concrete runs. -/
def sampleTx : TxContext := ⟨some "2024-01-01T00:00:00Z"⟩

/-- A concrete record, as created by `CreateProduct` at the sample time. -/
def sampleProduct : Product :=
  ⟨"p1", "Laptop", "Manufactured", "CompanyA", "2024-01-01T00:00:00Z",
   "2024-01-01T00:00:00Z", "High-end gaming laptop", "Electronics"⟩

/-- A concrete world holding `sampleProduct` under key "p1". -/
def sampleWorld : World := [("p1", marshalProduct sampleProduct)]

/-- C1: for every creation input with a fresh id and an available
transaction timestamp, `CreateProduct` succeeds, and `QueryProduct` on the
resulting world returns a record whose status is "Manufactured", whose
created-at and updated-at both equal the derived timestamp, and whose id,
name, owner, description and category equal the supplied arguments. -/
theorem claim_C1 (ctx : TxContext) (w : World)
    (id name owner description category t : String)
    (ht : ctx.txTimestamp = some t) (hfresh : getState w id = none) :
    CreateProduct ctx w id name owner description category =
      .ok (putState w id (marshalProduct
        ⟨id, name, "Manufactured", owner, t, t, description, category⟩))
    ∧ QueryProduct (putState w id (marshalProduct
        ⟨id, name, "Manufactured", owner, t, t, description, category⟩)) id =
      .ok ⟨id, name, "Manufactured", owner, t, t, description, category⟩ := by
  constructor
  · simp [CreateProduct, getTimestamp, ht, ProductExists, hfresh]
  · exact QueryProduct_putState_self w id _

theorem claim_C1_witness :
    QueryProduct (putState [] "p9" (marshalProduct
      ⟨"p9", "Widget", "Manufactured", "Acme", "2024-01-01T00:00:00Z",
       "2024-01-01T00:00:00Z", "A widget", "Tools"⟩)) "p9" =
      .ok ⟨"p9", "Widget", "Manufactured", "Acme", "2024-01-01T00:00:00Z",
       "2024-01-01T00:00:00Z", "A widget", "Tools"⟩ :=
  (claim_C1 sampleTx [] "p9" "Widget" "Acme" "A widget" "Tools"
    "2024-01-01T00:00:00Z" rfl rfl).2

/-- C2: when a record already exists under the id and the timestamp is
available, `CreateProduct` fails with the already-exists error and returns
no successor world, so the stored record is untouched. -/
theorem claim_C2 (ctx : TxContext) (w : World)
    (id name owner description category t : String) (v : Json)
    (ht : ctx.txTimestamp = some t) (hex : getState w id = some v) :
    CreateProduct ctx w id name owner description category =
      .error (.alreadyExists id)
    ∧ ∀ w', CreateProduct ctx w id name owner description category ≠ .ok w' := by
  have h1 : CreateProduct ctx w id name owner description category =
      .error (.alreadyExists id) := by
    simp [CreateProduct, getTimestamp, ht, ProductExists, hex]
  refine ⟨h1, fun w' hw => ?_⟩
  rw [h1] at hw
  cases hw

theorem claim_C2_witness :
    CreateProduct sampleTx sampleWorld "p1" "Other" "CompanyX" "other item" "Misc" =
      .error (.alreadyExists "p1") :=
  (claim_C2 sampleTx sampleWorld "p1" "Other" "CompanyX" "other item" "Misc"
    "2024-01-01T00:00:00Z" (marshalProduct sampleProduct) rfl rfl).1

/-- C3: for an existing record, `UpdateProduct` preserves each mutable
field whose argument is empty and overwrites each whose argument is
non-empty, keeps id, name and created-at, and always rewrites updated-at
to the derived timestamp. -/
theorem claim_C3 (ctx : TxContext) (w : World)
    (id newStatus newOwner newDescription newCategory t : String) (p : Product)
    (ht : ctx.txTimestamp = some t) (hq : QueryProduct w id = .ok p) :
    UpdateProduct ctx w id newStatus newOwner newDescription newCategory =
      .ok (putState w id (marshalProduct
        (applyUpdate p newStatus newOwner newDescription newCategory t)))
    ∧ QueryProduct (putState w id (marshalProduct
        (applyUpdate p newStatus newOwner newDescription newCategory t))) id =
      .ok (applyUpdate p newStatus newOwner newDescription newCategory t)
    ∧ (applyUpdate p newStatus newOwner newDescription newCategory t).ID = p.ID
    ∧ (applyUpdate p newStatus newOwner newDescription newCategory t).Name = p.Name
    ∧ (applyUpdate p newStatus newOwner newDescription newCategory t).CreatedAt = p.CreatedAt
    ∧ (applyUpdate p newStatus newOwner newDescription newCategory t).UpdatedAt = t
    ∧ (applyUpdate p newStatus newOwner newDescription newCategory t).Status =
        (if newStatus = "" then p.Status else newStatus)
    ∧ (applyUpdate p newStatus newOwner newDescription newCategory t).Owner =
        (if newOwner = "" then p.Owner else newOwner)
    ∧ (applyUpdate p newStatus newOwner newDescription newCategory t).Description =
        (if newDescription = "" then p.Description else newDescription)
    ∧ (applyUpdate p newStatus newOwner newDescription newCategory t).Category =
        (if newCategory = "" then p.Category else newCategory) := by
  refine ⟨?_, QueryProduct_putState_self w id _, rfl, rfl, rfl, rfl, ?_, ?_, ?_, ?_⟩
  · simp [UpdateProduct, getTimestamp, ht, hq]
  · by_cases h : newStatus = "" <;> simp [applyUpdate, h]
  · by_cases h : newOwner = "" <;> simp [applyUpdate, h]
  · by_cases h : newDescription = "" <;> simp [applyUpdate, h]
  · by_cases h : newCategory = "" <;> simp [applyUpdate, h]

theorem claim_C3_witness :
    UpdateProduct sampleTx sampleWorld "p1" "Shipped" "CompanyC" "" "" =
      .ok (putState sampleWorld "p1" (marshalProduct
        (applyUpdate sampleProduct "Shipped" "CompanyC" "" "" "2024-01-01T00:00:00Z"))) :=
  (claim_C3 sampleTx sampleWorld "p1" "Shipped" "CompanyC" "" ""
    "2024-01-01T00:00:00Z" sampleProduct rfl rfl).1

/-- C4: for an existing record, `TransferOwnership` stores exactly the
supplied owner (including the empty string), rewrites updated-at to the
derived timestamp, and leaves every other field unchanged. -/
theorem claim_C4 (ctx : TxContext) (w : World) (id newOwner t : String) (p : Product)
    (ht : ctx.txTimestamp = some t) (hq : QueryProduct w id = .ok p) :
    TransferOwnership ctx w id newOwner =
      .ok (putState w id (marshalProduct { p with Owner := newOwner, UpdatedAt := t }))
    ∧ QueryProduct (putState w id
        (marshalProduct { p with Owner := newOwner, UpdatedAt := t })) id =
      .ok { p with Owner := newOwner, UpdatedAt := t }
    ∧ ({ p with Owner := newOwner, UpdatedAt := t } : Product).Owner = newOwner
    ∧ ({ p with Owner := newOwner, UpdatedAt := t } : Product).UpdatedAt = t
    ∧ ({ p with Owner := newOwner, UpdatedAt := t } : Product).ID = p.ID
    ∧ ({ p with Owner := newOwner, UpdatedAt := t } : Product).Name = p.Name
    ∧ ({ p with Owner := newOwner, UpdatedAt := t } : Product).Status = p.Status
    ∧ ({ p with Owner := newOwner, UpdatedAt := t } : Product).Description = p.Description
    ∧ ({ p with Owner := newOwner, UpdatedAt := t } : Product).Category = p.Category
    ∧ ({ p with Owner := newOwner, UpdatedAt := t } : Product).CreatedAt = p.CreatedAt := by
  refine ⟨?_, QueryProduct_putState_self w id _, rfl, rfl, rfl, rfl, rfl, rfl, rfl, rfl⟩
  simp [TransferOwnership, getTimestamp, ht, hq]

theorem claim_C4_witness :
    TransferOwnership sampleTx sampleWorld "p1" "" =
      .ok (putState sampleWorld "p1" (marshalProduct
        { sampleProduct with Owner := "", UpdatedAt := "2024-01-01T00:00:00Z" }))
    ∧ ({ sampleProduct with Owner := "", UpdatedAt := "2024-01-01T00:00:00Z" } :
        Product).Owner = "" := by
  have h := claim_C4 sampleTx sampleWorld "p1" "" "2024-01-01T00:00:00Z"
    sampleProduct rfl rfl
  exact ⟨h.1, h.2.2.1⟩

/-- C5: `ProductExists` returns true exactly when the point read returns a
value, and on an absent key `ProductExists` is false while `QueryProduct`
(a pure read) fails with the not-found error. -/
theorem claim_C5 (w : World) (id : String) :
    (ProductExists w id = true ↔ (getState w id).isSome = true)
    ∧ (getState w id = none →
        ProductExists w id = false ∧ QueryProduct w id = .error (.notFound id)) := by
  constructor
  · simp [ProductExists]
  · intro h
    constructor
    · simp [ProductExists, h]
    · simp [QueryProduct, h]

/-- C9: decoding the encoding of any record returns the record itself,
field for field. -/
theorem claim_C9 (p : Product) : unmarshalProduct (marshalProduct p) = some p :=
  unmarshal_marshal p

/-- The record `CreateProduct` writes when called with empty id, name,
owner, description and category: no input validation happens, so the
stored record has empty id, name and owner. -/
def cexProduct : Product :=
  ⟨"", "", "Manufactured", "", "2024-01-01T00:00:00Z", "2024-01-01T00:00:00Z", "", ""⟩

/-- The world reached from the empty store by that single create. -/
def cexWorld : World := [("", marshalProduct cexProduct)]

/-- C6 counterexample: a single successful `CreateProduct` call with empty
arguments reaches a store whose record has empty id, name and owner (the
only non-empty field among the four named by the claim is the status). -/
theorem claim_C6_counterexample :
    CreateProduct sampleTx [] "" "" "" "" "" = .ok cexWorld
    ∧ Reachable cexWorld
    ∧ QueryProduct cexWorld "" = .ok cexProduct
    ∧ cexProduct.ID = "" ∧ cexProduct.Name = "" ∧ cexProduct.Owner = "" := by
  have hc : CreateProduct sampleTx [] "" "" "" "" "" = .ok cexWorld := rfl
  exact ⟨hc, Reachable.create sampleTx [] "" "" "" "" "" cexWorld Reachable.empty hc,
    rfl, rfl, rfl, rfl⟩

/-- C6 (amended): after any sequence of successful operations from the
empty store, every stored value decodes to a record with a non-empty
status ("Manufactured" at both creation paths, and updates never replace
a non-empty status with an empty one); the id, name and owner fields can
be empty, since creation does not validate its arguments and ownership
transfer accepts the empty string. -/
theorem claim_C6 (w : World) (h : Reachable w) : recordsStatusNonempty w :=
  reachable_statusNonempty h

theorem claim_C6_witness :
    ∃ p, unmarshalProduct (marshalProduct sampleProduct) = some p ∧ p.Status ≠ "" := by
  have hr : Reachable sampleWorld :=
    Reachable.create sampleTx [] "p1" "Laptop" "CompanyA" "High-end gaming laptop"
      "Electronics" sampleWorld Reachable.empty rfl
  exact claim_C6 sampleWorld hr "p1" (marshalProduct sampleProduct) rfl

/-- C7: when the timestamp is available, `InitLedger` writes exactly the
two seed records under "p1" and "p2" (every other key is untouched), with
distinct owners and names, status "Manufactured", and created-at equal to
updated-at equal to the derived timestamp; the write is an unconditional
overwrite, so it succeeds even when records already exist under those
ids. -/
theorem claim_C7 (ctx : TxContext) (w : World) (t : String)
    (ht : ctx.txTimestamp = some t) :
    InitLedger ctx w = .ok (putState (putState w "p1" (marshalProduct (seed1 t)))
      "p2" (marshalProduct (seed2 t)))
    ∧ QueryProduct (putState (putState w "p1" (marshalProduct (seed1 t)))
        "p2" (marshalProduct (seed2 t))) "p1" = .ok (seed1 t)
    ∧ QueryProduct (putState (putState w "p1" (marshalProduct (seed1 t)))
        "p2" (marshalProduct (seed2 t))) "p2" = .ok (seed2 t)
    ∧ (seed1 t).ID = "p1" ∧ (seed2 t).ID = "p2"
    ∧ (seed1 t).Owner = "CompanyA" ∧ (seed2 t).Owner = "CompanyB"
    ∧ (seed1 t).Name ≠ (seed2 t).Name
    ∧ (seed1 t).Status = "Manufactured" ∧ (seed2 t).Status = "Manufactured"
    ∧ (seed1 t).CreatedAt = t ∧ (seed1 t).UpdatedAt = t
    ∧ (seed2 t).CreatedAt = t ∧ (seed2 t).UpdatedAt = t
    ∧ (∀ k, k ≠ "p1" → k ≠ "p2" →
        getState (putState (putState w "p1" (marshalProduct (seed1 t)))
          "p2" (marshalProduct (seed2 t))) k = getState w k) := by
  refine ⟨InitLedger_eq ctx w ht, ?_, QueryProduct_putState_self _ _ _,
    rfl, rfl, rfl, rfl, ?_, rfl, rfl, rfl, rfl, rfl, rfl, ?_⟩
  · have hne : ("p1" : String) ≠ "p2" := by decide
    simp [QueryProduct, getState_putState, hne, unmarshal_marshal]
  · intro he
    have : (seed1 t).Name = (seed2 t).Name := he
    simp [seed1, seed2] at this
  · intro k hk1 hk2
    rw [getState_putState, getState_putState]
    simp [hk1, hk2]

theorem claim_C7_witness :
    QueryProduct (putState (putState sampleWorld "p1"
        (marshalProduct (seed1 "2024-01-01T00:00:00Z")))
      "p2" (marshalProduct (seed2 "2024-01-01T00:00:00Z"))) "p1" =
      .ok (seed1 "2024-01-01T00:00:00Z") :=
  (claim_C7 sampleTx sampleWorld "2024-01-01T00:00:00Z" rfl).2.1

/-- C8: the full range scan decodes the store's entries in their scan
order, which for every reachable world is strictly ascending key order;
it returns the whole decoded list exactly when every value decodes, and
aborts with a decode error (returning no partial list) as soon as one
value fails; in particular after seeding the empty store it returns
exactly the two seed records, both with status "Manufactured". -/
theorem claim_C8 :
    (∀ ctx t w', ctx.txTimestamp = some t → InitLedger ctx ([] : World) = .ok w' →
      GetAllProducts w' = .ok [seed1 t, seed2 t]
      ∧ (seed1 t).Status = "Manufactured" ∧ (seed2 t).Status = "Manufactured")
    ∧ (∀ w, Reachable w → keyOrdered w)
    ∧ (∀ w : World, GetAllProducts w =
        match w.mapM (fun kv => unmarshalProduct kv.2) with
        | some ps => .ok ps
        | none => .error .decodeError) := by
  refine ⟨?_, fun w h => reachable_keyOrdered h, fun w => getAllFrom_eq_mapM w⟩
  intro ctx t w' ht hinit
  rw [InitLedger_eq ctx ([] : World) ht] at hinit
  have hw' : w' = putState (putState ([] : World) "p1" (marshalProduct (seed1 t)))
      "p2" (marshalProduct (seed2 t)) := (Except.ok.inj hinit).symm
  subst hw'
  refine ⟨?_, rfl, rfl⟩
  have hps : putState (putState ([] : World) "p1" (marshalProduct (seed1 t)))
      "p2" (marshalProduct (seed2 t)) =
      [("p1", marshalProduct (seed1 t)), ("p2", marshalProduct (seed2 t))] := by
    simp [putState, keyLt, charListLt]
  rw [hps]
  simp [GetAllProducts, getAllFrom, unmarshal_marshal]

/-- C10: no operation removes a key: whenever a mutating operation
succeeds, every key that held a value before still holds one after (the
read operations return no modified world at all in this model). -/
theorem claim_C10 :
    (∀ ctx w id name owner description category w' k,
      CreateProduct ctx w id name owner description category = .ok w' →
      (getState w k).isSome = true → (getState w' k).isSome = true)
    ∧ (∀ ctx w w' k, InitLedger ctx w = .ok w' →
      (getState w k).isSome = true → (getState w' k).isSome = true)
    ∧ (∀ ctx w id newStatus newOwner newDescription newCategory w' k,
      UpdateProduct ctx w id newStatus newOwner newDescription newCategory = .ok w' →
      (getState w k).isSome = true → (getState w' k).isSome = true)
    ∧ (∀ ctx w id newOwner w' k,
      TransferOwnership ctx w id newOwner = .ok w' →
      (getState w k).isSome = true → (getState w' k).isSome = true) := by
  refine ⟨?_, ?_, ?_, ?_⟩
  · intro ctx w id name owner description category w' k h hk
    obtain ⟨t, _, _, hw'⟩ := CreateProduct_ok h
    rw [hw']
    exact getState_isSome_putState _ _ hk
  · intro ctx w w' k h hk
    obtain ⟨t, _, hw'⟩ := InitLedger_ok h
    rw [hw']
    exact getState_isSome_putState _ _ (getState_isSome_putState _ _ hk)
  · intro ctx w id newStatus newOwner newDescription newCategory w' k h hk
    obtain ⟨t, p, _, _, hw'⟩ := UpdateProduct_ok h
    rw [hw']
    exact getState_isSome_putState _ _ hk
  · intro ctx w id newOwner w' k h hk
    obtain ⟨t, p, _, _, hw'⟩ := TransferOwnership_ok h
    rw [hw']
    exact getState_isSome_putState _ _ hk
